import Mathlib

/- Shallow embedding of the reminder-cli repository (Rust sources under
src/): the schedule-expression normalizer (src/cron_parser.rs,
src/time_parser.rs), the reminder state machine (src/reminder.rs) and
the persistent store (src/storage.rs).  Text is modelled as List Char;
instants (chrono DateTime of Local) as Int; chrono NaiveDate as an Int
day number whose residue mod 7 is Weekday::num_days_from_monday. -/

namespace ReminderCli

/-- ASCII whitespace: models the whitespace class that Rust str::trim
and the regex class backslash-s recognise on the inputs of interest. -/
def wsChar (c : Char) : Bool :=
  c = ' ' || c = '\t' || c = '\n' || c = '\r'

/-- Characters that may occur inside a single cron field (digits, star,
range dash, step slash, list comma). -/
def cronChar (c : Char) : Bool :=
  c.isDigit || c = '*' || c = '-' || c = '/' || c = ','

theorem cronChar_not_ws (c : Char) (h : cronChar c = true) : wsChar c = false := by
  by_cases h1 : c = ' '
  · subst h1; exact absurd h (by decide)
  by_cases h2 : c = '\t'
  · subst h2; exact absurd h (by decide)
  by_cases h3 : c = '\n'
  · subst h3; exact absurd h (by decide)
  by_cases h4 : c = '\r'
  · subst h4; exact absurd h (by decide)
  simp [wsChar, h1, h2, h3, h4]

/-- Core of field splitting: returns the first field and the remaining
fields of the input split at the separator (Rust str::split semantics:
n separators yield n+1 fields, empty fields preserved). -/
def splitOnCharCore (sep : Char) : List Char → List Char × List (List Char)
  | [] => ([], [])
  | c :: r =>
    let p := splitOnCharCore sep r
    if c = sep then ([], p.1 :: p.2) else (c :: p.1, p.2)

/-- Split a character list at every occurrence of the separator. -/
def splitOnChar (sep : Char) (l : List Char) : List (List Char) :=
  (splitOnCharCore sep l).1 :: (splitOnCharCore sep l).2

theorem splitOnCharCore_eq_nil (sep : Char) (l : List Char)
    (h : splitOnCharCore sep l = ([], [])) : l = [] := by
  cases l with
  | nil => rfl
  | cons c r =>
    simp only [splitOnCharCore] at h
    split at h
    · exact absurd (congrArg Prod.snd h) (by simp)
    · exact absurd (congrArg Prod.fst h) (by simp)

theorem head_of_splitOnCharCore (sep : Char) (l : List Char)
    (h : (splitOnCharCore sep l).1 ≠ []) :
    ∃ c r, l = c :: r ∧ c ≠ sep ∧ l.head? = some c := by
  cases l with
  | nil => exact absurd rfl h
  | cons c r =>
    simp only [splitOnCharCore] at h
    by_cases hc : c = sep
    · rw [if_pos hc] at h; exact absurd rfl h
    · exact ⟨c, r, rfl, hc, rfl⟩

theorem getLast?_cons_of_ne_nil {α : Type} (c : α) (r : List α) (h : r ≠ []) :
    (c :: r).getLast? = r.getLast? := by
  cases r with
  | nil => exact absurd rfl h
  | cons b t => exact List.getLast?_cons_cons

/-- If the input ends with the separator, the last field is empty. -/
theorem splitOnChar_getLast_of_sep (sep : Char) :
    ∀ l : List Char, l.getLast? = some sep →
      (splitOnChar sep l).getLast? = some [] := by
  intro l
  induction l with
  | nil => intro h; simp at h
  | cons c r ih =>
    intro h
    by_cases hr : r = []
    · subst hr
      simp only [List.getLast?_singleton, Option.some.injEq] at h
      subst h
      simp [splitOnChar, splitOnCharCore]
    · rw [getLast?_cons_of_ne_nil c r hr] at h
      have ihr := ih h
      simp only [splitOnChar, splitOnCharCore] at *
      by_cases hc : c = sep
      · rw [if_pos hc]
        simpa using ihr
      · rw [if_neg hc]
        simp only []
        rcases hfs : (splitOnCharCore sep r).2 with _ | ⟨g, gs⟩
        · rw [hfs] at ihr
          simp only [List.getLast?_singleton, Option.some.injEq] at ihr
          have : splitOnCharCore sep r = ([], []) := by
            rcases hcore : splitOnCharCore sep r with ⟨a, b⟩
            rw [hcore] at ihr hfs
            simp at ihr hfs
            rw [ihr, hfs]
          exact absurd (splitOnCharCore_eq_nil sep r this) hr
        · rw [hfs] at ihr
          rw [getLast?_cons_of_ne_nil _ _ (by simp)] at ihr ⊢
          exact ihr

/-- If the last field is nonempty, the input does not end with the
separator. -/
theorem getLast?_ne_sep_of_splitOnChar (sep : Char) :
    ∀ (l : List Char) (f : List Char),
      (splitOnChar sep l).getLast? = some f → f ≠ [] →
      l.getLast? ≠ some sep := by
  intro l f hlast hne hsep
  have := splitOnChar_getLast_of_sep sep l hsep
  rw [hlast] at this
  exact hne (by simpa using this)

/-- Rust str::trim over the modelled whitespace class. -/
def trim (l : List Char) : List Char :=
  ((l.dropWhile wsChar).reverse.dropWhile wsChar).reverse

theorem dropWhile_eq_self_of_head {α : Type} (p : α → Bool) (l : List α)
    (h : ∀ a, l.head? = some a → p a = false) : l.dropWhile p = l := by
  cases l with
  | nil => rfl
  | cons c r =>
    have := h c rfl
    simp [List.dropWhile_cons, this]

theorem trim_eq_self (l : List Char)
    (hh : ∀ a, l.head? = some a → wsChar a = false)
    (hl : ∀ a, l.getLast? = some a → wsChar a = false) : trim l = l := by
  unfold trim
  rw [dropWhile_eq_self_of_head wsChar l hh]
  rw [dropWhile_eq_self_of_head wsChar l.reverse (by
    intro a ha
    rw [List.head?_reverse] at ha
    exact hl a ha)]
  exact List.reverse_reverse l

/-- Numeric value of a digit string (most significant digit first). -/
def natOfDigits (l : List Char) : Nat :=
  l.foldl (fun a c => 10 * a + (c.toNat - 48)) 0

/-- Parse a nonempty all-digit string as a number. -/
def parseNum (l : List Char) : Option Nat :=
  if (!l.isEmpty) && l.all Char.isDigit then some (natOfDigits l) else none

/-- Modelled from the spec: one base item of a cron field in the grammar
of cron::Schedule::from_str — a star, a single value, or a range, with
the value bounds of the field position. -/
def validBase (lo hi : Nat) (f : List Char) : Bool :=
  if f = ['*'] then true
  else
    match splitOnChar '-' f with
    | [n] =>
      match parseNum n with
      | some v => decide (lo ≤ v) && decide (v ≤ hi)
      | none => false
    | [a, b] =>
      match parseNum a, parseNum b with
      | some va, some vb => decide (lo ≤ va) && decide (va ≤ vb) && decide (vb ≤ hi)
      | _, _ => false
    | _ => false

/-- Modelled from the spec: one cron field — a base item optionally
followed by a slash and a positive step. -/
def validField (lo hi : Nat) (f : List Char) : Bool :=
  match splitOnChar '/' f with
  | [b] => validBase lo hi b
  | [b, s] =>
    validBase lo hi b &&
      (match parseNum s with
       | some k => decide (1 ≤ k)
       | none => false)
  | _ => false

/-- Modelled from the spec: the validity check performed by the external
crate call cron::Schedule::from_str (not part of src/) — six
space-separated fields (second, minute, hour, day-of-month, month,
day-of-week) validated against standard cron grammar supporting star,
ranges and steps. -/
def validateCron (l : List Char) : Bool :=
  l.all (fun c => c = ' ' || cronChar c) &&
    match splitOnChar ' ' l with
    | [sec, mins, hour, dom, mon, dow] =>
      validField 0 59 sec && validField 0 59 mins && validField 0 23 hour &&
        validField 1 31 dom && validField 1 12 mon && validField 0 6 dow
    | _ => false

/-- Number of space-separated fields of a string. -/
def numFields (l : List Char) : Nat :=
  (splitOnChar ' ' l).length

theorem validField_ne_nil (lo hi : Nat) (f : List Char)
    (h : validField lo hi f = true) : f ≠ [] := by
  rintro rfl
  simp [validField, splitOnChar, splitOnCharCore, validBase, parseNum] at h

theorem numFields_of_validateCron (l : List Char)
    (h : validateCron l = true) : numFields l = 6 := by
  unfold validateCron at h
  rw [Bool.and_eq_true] at h
  rcases h with ⟨-, h⟩
  unfold numFields
  rcases hs : splitOnChar ' ' l with _ | ⟨a, _ | ⟨b, _ | ⟨c, _ | ⟨d, _ | ⟨e, _ | ⟨f, _ | ⟨g, t⟩⟩⟩⟩⟩⟩⟩ <;>
    rw [hs] at h <;> simp_all

theorem validateCron_trim_eq_self (l : List Char)
    (h : validateCron l = true) : trim l = l := by
  have hall : ∀ c ∈ l, (c = ' ' || cronChar c) = true := by
    have := (Bool.and_eq_true _ _).mp h |>.1
    simpa [List.all_eq_true] using this
  have hm := (Bool.and_eq_true _ _).mp h |>.2
  rcases hs : splitOnChar ' ' l with _ | ⟨sec, _ | ⟨b, _ | ⟨c, _ | ⟨d, _ | ⟨e, _ | ⟨dow, _ | ⟨g, t⟩⟩⟩⟩⟩⟩⟩ <;>
    rw [hs] at hm <;> simp only [] at hm
  case cons.cons.cons.cons.cons.cons.nil =>
    rw [Bool.and_eq_true, Bool.and_eq_true, Bool.and_eq_true, Bool.and_eq_true,
      Bool.and_eq_true] at hm
    have hsec : sec ≠ [] := validField_ne_nil 0 59 sec hm.1.1.1.1.1
    have hdow : dow ≠ [] := validField_ne_nil 0 6 dow hm.2
    have hsec1 : (splitOnCharCore ' ' l).1 = sec := by
      have := congrArg List.head? hs
      simpa [splitOnChar] using this
    obtain ⟨c0, r0, hl, hc0, hhead⟩ :=
      head_of_splitOnCharCore ' ' l (by rw [hsec1]; exact hsec)
    have hlastf : (splitOnChar ' ' l).getLast? = some dow := by
      rw [hs]; simp
    have hlns : l.getLast? ≠ some ' ' :=
      getLast?_ne_sep_of_splitOnChar ' ' l dow hlastf hdow
    apply trim_eq_self
    · intro a ha
      rw [hhead] at ha
      obtain rfl : c0 = a := by simpa using ha
      have hmem : c0 ∈ l := by rw [hl]; exact List.mem_cons_self _ _
      have := hall c0 hmem
      rcases Bool.or_eq_true _ _ |>.mp this with h1 | h2
      · exact absurd (by simpa using h1) hc0
      · exact cronChar_not_ws c0 h2
    · intro a ha
      have hmem : a ∈ l := List.mem_of_getLast?_eq_some ha
      have := hall a hmem
      rcases Bool.or_eq_true _ _ |>.mp this with h1 | h2
      · obtain rfl : a = ' ' := by simpa using h1
        exact absurd ha hlns
      · exact cronChar_not_ws a h2
  all_goals exact absurd hm (by simp)

/-- Errors of the cron normalizer (message text elided): the generated
expression of a failing re-validation is recorded, mirroring the two
bail sites of parse_cron. -/
inductive CronErr : Type
  | generatedInvalid : List Char → CronErr
  | invalid : CronErr
deriving DecidableEq

/-- Embedding of parse_cron (src/cron_parser.rs lines 10-51): trim the
input, accept it unchanged when it is already a valid cron expression,
otherwise translate the English phrase and re-validate the translation.
The two external crate calls are the translate parameter
(english_to_cron::str_cron_syntax) and validateCron
(cron::Schedule::from_str success), neither part of src/. -/
def parse_cron (translate : List Char → Option (List Char)) (input : List Char) :
    Except CronErr (List Char) :=
  if validateCron (trim input) = true then .ok (trim input)
  else
    match translate (trim input) with
    | some cronExpr =>
      if validateCron cronExpr = true then .ok cronExpr
      else .error (.generatedInvalid cronExpr)
    | none => .error .invalid

/-- Modelled from the spec: english_to_cron::str_cron_syntax (external
crate, not part of src/), restricted to the English recurrence phrases
the spec lists as worked examples; each recognized phrase translates to
a six-field cron string. -/
def str_cron_syntax (input : List Char) : Option (List Char) :=
  if input = ("every minute").toList then some (("0 * * * * *").toList)
  else if input = ("every hour").toList then some (("0 0 * * * *").toList)
  else if input = ("every day at 9am").toList then some (("0 0 9 * * *").toList)
  else if input = ("every monday at 14:00").toList then some (("0 0 14 * * 1").toList)
  else if input = ("every weekday at 8:30").toList then some (("0 30 8 * * 1-5").toList)
  else if input = ("every 30 minutes").toList then some (("0 */30 * * * *").toList)
  else none

/-- Largest i64 value: Rust caps[1].parse::<i64>() fails above it. -/
def maxI64 : Nat := 9223372036854775807

/-- Seconds per unit for each unit alternative of the relative-time
regex of src/time_parser.rs line 46: minutes, hours, days, weeks. -/
def unitSeconds (u : List Char) : Option Int :=
  if u = ['m'] ∨ u = ['m','i','n'] ∨ u = ['m','i','n','s'] ∨
      u = ['m','i','n','u','t','e'] ∨ u = ['m','i','n','u','t','e','s'] then some 60
  else if u = ['h'] ∨ u = ['h','r'] ∨ u = ['h','r','s'] ∨
      u = ['h','o','u','r'] ∨ u = ['h','o','u','r','s'] then some 3600
  else if u = ['d'] ∨ u = ['d','a','y'] ∨ u = ['d','a','y','s'] then some 86400
  else if u = ['w'] ∨ u = ['w','e','e','k'] ∨ u = ['w','e','e','k','s'] then some 604800
  else none

/-- Embedding of parse_relative (src/time_parser.rs lines 45-64): the
anchored regex of a nonempty digit run, an optional whitespace run and
a unit word, followed by an i64 parse of the digits; on a match the
result is now plus the offset.  Instants are seconds; now (Local::now())
is a parameter. -/
def parse_relative (now : Int) (input : List Char) : Option Int :=
  if (input.takeWhile Char.isDigit).isEmpty then none
  else
    (unitSeconds ((input.dropWhile Char.isDigit).dropWhile wsChar)).bind
      (fun k =>
        if natOfDigits (input.takeWhile Char.isDigit) ≤ maxI64 then
          some (now + (natOfDigits (input.takeWhile Char.isDigit) : Int) * k)
        else none)

/-- ASCII lowercasing, modelling str::to_lowercase on the ASCII inputs
of interest. -/
def lowerChar (c : Char) : Char :=
  if c.isUpper then Char.ofNat (c.toNat + 32) else c

/-- The relative stage of parse_time (src/time_parser.rs lines 9-20):
the input is trimmed and lowercased before parse_relative sees it. -/
def parse_time_relative_stage (now : Int) (input : List Char) : Option Int :=
  parse_relative now ((trim input).map lowerChar)

/-- chrono Weekday::num_days_from_monday of an Int day number: dates are
modelled as day numbers whose residue mod 7 is the weekday (0 = Monday
through 6 = Sunday), which is exactly how chrono date arithmetic moves
the weekday one step per day. -/
def num_days_from_monday (d : Int) : Int := d % 7

/-- Embedding of next_weekday (src/time_parser.rs lines 156-161). -/
def next_weekday (fromDay target : Int) : Int :=
  let daysAhead := (target - num_days_from_monday fromDay + 7) % 7
  fromDay + (if daysAhead = 0 then 7 else daysAhead)

/-- Embedding of this_weekday (src/time_parser.rs lines 163-167). -/
def this_weekday (fromDay target : Int) : Int :=
  fromDay + (target - num_days_from_monday fromDay + 7) % 7

/-- Embedding of parse_weekday (src/time_parser.rs lines 143-154),
returning the weekday as its num_days_from_monday value. -/
def parse_weekday (s : List Char) : Option Int :=
  if s = ['m','o','n','d','a','y'] ∨ s = ['m','o','n'] then some 0
  else if s = ['t','u','e','s','d','a','y'] ∨ s = ['t','u','e'] ∨ s = ['t','u','e','s'] then some 1
  else if s = ['w','e','d','n','e','s','d','a','y'] ∨ s = ['w','e','d'] then some 2
  else if s = ['t','h','u','r','s','d','a','y'] ∨ s = ['t','h','u'] ∨
      s = ['t','h','u','r'] ∨ s = ['t','h','u','r','s'] then some 3
  else if s = ['f','r','i','d','a','y'] ∨ s = ['f','r','i'] then some 4
  else if s = ['s','a','t','u','r','d','a','y'] ∨ s = ['s','a','t'] then some 5
  else if s = ['s','u','n','d','a','y'] ∨ s = ['s','u','n'] then some 6
  else none

/-- The date-reference dispatch of parse_natural (src/time_parser.rs
lines 82-104), on an Int day number for today: the literal references,
the next/this prefixed weekday forms, and the bare weekday fallback
which uses next_weekday. -/
def resolve_date_part (today : Int) (s : List Char) : Option Int :=
  if s = ['t','o','d','a','y'] then some today
  else if s = ['t','o','m','o','r','r','o','w'] then some (today + 1)
  else if s = ['y','e','s','t','e','r','d','a','y'] then some (today - 1)
  else if (['n','e','x','t',' '].isPrefixOf s) = true then
    match parse_weekday (s.drop 5) with
    | some w => some (next_weekday today w)
    | none => none
  else if (['t','h','i','s',' '].isPrefixOf s) = true then
    match parse_weekday (s.drop 5) with
    | some w => some (this_weekday today w)
    | none => none
  else
    match parse_weekday s with
    | some w => some (next_weekday today w)
    | none => none

/-- Index of the last whitespace character of the input, modelling
str::rfind(char::is_whitespace) in src/time_parser.rs line 73 (indices
coincide with byte positions on the ASCII inputs of interest). -/
def rfindWs : List Char → Option Nat
  | [] => none
  | c :: r =>
    match rfindWs r with
    | some i => some (i + 1)
    | none => if wsChar c then some 0 else none

/-- The date-part/time-part split of parse_natural (src/time_parser.rs
lines 73-79): split at the last whitespace and trim both halves, or
take the whole input as the date reference when it has no whitespace. -/
def split_date_time (input : List Char) : List Char × List Char :=
  match rfindWs input with
  | some pos => (trim (input.take pos), trim (input.drop pos))
  | none => (input, [])

/-- The date resolution of parse_natural (src/time_parser.rs lines
66-104): the date reference seen by the dispatch is the part of the
input before its last whitespace; none models the bail paths (a failed
weekday parse or an unknown date reference), on which parse_natural
fails regardless of the time part. -/
def parse_natural_date (today : Int) (input : List Char) : Option Int :=
  resolve_date_part today (split_date_time input).1

theorem parse_weekday_range (s : List Char) (w : Int)
    (h : parse_weekday s = some w) : 0 ≤ w ∧ w < 7 := by
  unfold parse_weekday at h
  split_ifs at h <;> simp_all <;> omega

/-- ReminderSchedule (src/reminder.rs lines 23-27). -/
inductive ReminderSchedule : Type
  | OneTime : Int → ReminderSchedule
  | Cron : List Char → ReminderSchedule
deriving DecidableEq

/-- Reminder (src/reminder.rs lines 8-21): ids are modelled by their
string form (Uuid::to_string is injective), instants by Int, the tag
set by a list (only membership matters and no claim touches tags). -/
structure Reminder : Type where
  id : List Char
  title : List Char
  description : Option (List Char)
  schedule : ReminderSchedule
  created_at : Int
  next_trigger : Option Int
  completed : Bool
  paused : Bool
  tags : List (List Char)
deriving DecidableEq

/-- Reminder::new_one_time (src/reminder.rs lines 30-47); the fresh
Uuid::new_v4() and Local::now() are parameters. -/
def Reminder.new_one_time (freshId : List Char) (now : Int) (title : List Char)
    (description : Option (List Char)) (time : Int)
    (tags : List (List Char)) : Reminder :=
  { id := freshId, title := title, description := description,
    schedule := .OneTime time, created_at := now, next_trigger := some time,
    completed := false, paused := false, tags := tags }

/-- Reminder::new_cron (src/reminder.rs lines 49-69): fails if the
expression does not parse; the external upcoming-occurrence computation
schedule.upcoming(Local).next() is the next parameter. -/
def Reminder.new_cron (freshId : List Char) (now : Int)
    (next : List Char → Option Int) (title : List Char)
    (description : Option (List Char)) (cron_expr : List Char)
    (tags : List (List Char)) : Option Reminder :=
  if validateCron cron_expr = true then
    some { id := freshId, title := title, description := description,
           schedule := .Cron cron_expr, created_at := now,
           next_trigger := next cron_expr, completed := false,
           paused := false, tags := tags }
  else none

/-- Reminder::calculate_next_trigger (src/reminder.rs lines 71-83):
OneTime becomes completed with no next trigger; Cron re-evaluates the
rule, and when Schedule::from_str fails (validateCron false) the
if-let leaves the reminder untouched. -/
def Reminder.calculate_next_trigger (next : List Char → Option Int)
    (r : Reminder) : Reminder :=
  match r.schedule with
  | .OneTime _ => { r with completed := true, next_trigger := none }
  | .Cron expr =>
    if validateCron expr = true then { r with next_trigger := next expr } else r

/-- Reminder::is_due (src/reminder.rs lines 85-93). -/
def Reminder.is_due (now : Int) (r : Reminder) : Bool :=
  if r.completed || r.paused then false
  else
    match r.next_trigger with
    | some next => decide (next ≤ now)
    | none => false

/-- Reminder::pause (src/reminder.rs lines 95-97). -/
def Reminder.pause (r : Reminder) : Reminder := { r with paused := true }

/-- Reminder::resume (src/reminder.rs lines 99-107): clears paused and
recomputes the next trigger for parsable cron schedules only. -/
def Reminder.resume (next : List Char → Option Int) (r : Reminder) : Reminder :=
  match r.schedule with
  | .Cron expr =>
    if validateCron expr = true then
      { r with paused := false, next_trigger := next expr }
    else { r with paused := false }
  | .OneTime _ => { r with paused := false }

/-- Storage errors the claims observe (message text elided): the
ambiguity bail sites record the prefix and the match count they name. -/
inductive StorageErr : Type
  | ambiguousId : List Char → Nat → StorageErr
deriving DecidableEq

/-- The records whose identifier starts with the given prefix, shared
by find_by_short_id and delete_by_short_id (src/storage.rs lines
116-119 and 135-139). -/
def short_id_matches (reminders : List Reminder) (sid : List Char) : List Reminder :=
  reminders.filter (fun r => sid.isPrefixOf r.id)

/-- Storage::find_by_short_id (src/storage.rs lines 114-130), on the
loaded collection. -/
def find_by_short_id (reminders : List Reminder) (sid : List Char) :
    Except StorageErr (Option Reminder) :=
  match short_id_matches reminders sid with
  | [] => .ok none
  | [r] => .ok (some r)
  | _ => .error (.ambiguousId sid (short_id_matches reminders sid).length)

/-- Storage::delete_by_short_id (src/storage.rs lines 133-155), on the
loaded collection.  The second component is the collection passed to
save, none when no save is performed. -/
def delete_by_short_id (reminders : List Reminder) (sid : List Char) :
    Except StorageErr (Option (List Char) × Option (List Reminder)) :=
  match (short_id_matches reminders sid).map (fun r => r.id) with
  | [] => .ok (none, none)
  | [i] => .ok (some i, some (reminders.filter (fun r => decide (r.id ≠ i))))
  | _ => .error (.ambiguousId sid ((short_id_matches reminders sid).map (fun r => r.id)).length)

/-- Storage::delete (src/storage.rs lines 83-94), on the loaded
collection: retain everything with a different id; if the length did
not change return false without saving.  The second component is the
collection passed to save, none when no save is performed. -/
def Storage.delete (reminders : List Reminder) (i : List Char) :
    Bool × Option (List Reminder) :=
  let remaining := reminders.filter (fun r => decide (r.id ≠ i))
  if remaining.length = reminders.length then (false, none)
  else (true, some remaining)

/-- Storage::clean_completed (src/storage.rs lines 158-169): remove the
completed records, save only when the removed count is positive.  The
second component is the collection passed to save, none when no save is
performed. -/
def Storage.clean_completed (reminders : List Reminder) :
    Nat × Option (List Reminder) :=
  let remaining := reminders.filter (fun r => !r.completed)
  let removed := reminders.length - remaining.length
  if 0 < removed then (removed, some remaining) else (removed, none)

/-- The for-loop of Storage::import_from_file (src/storage.rs lines
216-229): ids is the set of identifiers of the pre-import store,
computed once before the loop. -/
def importLoop (ids : List (List Char)) (overwrite : Bool) :
    List Reminder → List Reminder → Nat → Nat → (Nat × Nat) × List Reminder
  | [], ex, ic, sc => ((ic, sc), ex)
  | r :: rest, ex, ic, sc =>
    if r.id ∈ ids then
      if overwrite then
        importLoop ids overwrite rest
          (ex.filter (fun x => decide (x.id ≠ r.id)) ++ [r]) (ic + 1) sc
      else importLoop ids overwrite rest ex ic (sc + 1)
    else importLoop ids overwrite rest (ex ++ [r]) (ic + 1) sc

/-- Storage::import_from_file (src/storage.rs lines 204-233) after
the import file and the store were loaded: returns the counts
(imported_count, skipped_count) and the collection passed to save. -/
def import_from_file (imported existing : List Reminder) (overwrite : Bool) :
    (Nat × Nat) × List Reminder :=
  importLoop (existing.map (fun r => r.id)) overwrite imported existing 0 0

/- ===== claim theorems ===== -/

/-- A concrete OneTime reminder. -/
def exOneTime : Reminder :=
  { id := ("a1").toList, title := ("t").toList, description := none,
    schedule := .OneTime 42, created_at := 0, next_trigger := some 42,
    completed := false, paused := false, tags := [] }

/-- A concrete recurring reminder whose stored cron expression does not
parse and whose next_trigger is still set. -/
def exCronBad : Reminder :=
  { id := ("b2").toList, title := ("t").toList, description := none,
    schedule := .Cron (("boom").toList), created_at := 0, next_trigger := some 5,
    completed := false, paused := false, tags := [] }

/-- C1 (counterexample): a recurring reminder whose cron expression
fails to parse and whose next_trigger is Some(5) keeps next_trigger =
Some(5) after calculate_next_trigger(), so the claim that next_trigger
is left unset (None) is false. -/
theorem cron_unparsable_next_trigger_counterexample :
    validateCron (("boom").toList) = false ∧
    (exCronBad.calculate_next_trigger (fun _ => none)).next_trigger = some 5 := by
  constructor
  · decide
  · rfl

/-- C1 (amended): when the stored cron expression of a Recurring
reminder fails to parse, calculate_next_trigger() leaves the reminder
entirely unchanged — next_trigger keeps whatever value it had (it is
only unset if it was already unset), and the reminder is paused in
effect only in that case. -/
theorem cron_unparsable_leaves_reminder_unchanged
    (next : List Char → Option Int) (r : Reminder) (expr : List Char)
    (h1 : r.schedule = .Cron expr) (h2 : validateCron expr = false) :
    r.calculate_next_trigger next = r := by
  simp [Reminder.calculate_next_trigger, h1, h2]

theorem cron_unparsable_leaves_reminder_unchanged_witness :
    exCronBad.calculate_next_trigger (fun _ => none) = exCronBad :=
  cron_unparsable_leaves_reminder_unchanged (fun _ => none) exCronBad
    (("boom").toList) rfl (by decide)

/-- C2: for a reminder with a OneTime schedule, one
calculate_next_trigger() call results in completed = true and
next_trigger = None, and a second call changes nothing. -/
theorem oneTime_trigger_terminal_idempotent
    (next : List Char → Option Int) (r : Reminder) (t : Int)
    (h : r.schedule = .OneTime t) :
    (r.calculate_next_trigger next).completed = true ∧
    (r.calculate_next_trigger next).next_trigger = none ∧
    (r.calculate_next_trigger next).calculate_next_trigger next =
      r.calculate_next_trigger next := by
  simp [Reminder.calculate_next_trigger, h]

theorem oneTime_trigger_terminal_idempotent_witness :
    (exOneTime.calculate_next_trigger (fun _ => none)).completed = true ∧
    (exOneTime.calculate_next_trigger (fun _ => none)).next_trigger = none ∧
    (exOneTime.calculate_next_trigger (fun _ => none)).calculate_next_trigger
        (fun _ => none) =
      exOneTime.calculate_next_trigger (fun _ => none) :=
  oneTime_trigger_terminal_idempotent (fun _ => none) exOneTime 42 rfl

/-- The invariant of C7: while not completed, a OneTime reminder's
next_trigger equals the schedule's instant. -/
def oneTimeInv (r : Reminder) : Prop :=
  ∀ t : Int, r.schedule = .OneTime t → r.completed = false →
    r.next_trigger = some t

/-- C7: construction (both constructors), pause, resume and
calculate_next_trigger all preserve the invariant that a
not-yet-completed OneTime reminder has next_trigger equal to its
schedule's instant. -/
theorem oneTime_next_trigger_invariant :
    (∀ (freshId : List Char) (now : Int) (title : List Char)
        (description : Option (List Char)) (time : Int)
        (tags : List (List Char)),
      oneTimeInv (Reminder.new_one_time freshId now title description time tags)) ∧
    (∀ (freshId : List Char) (now : Int) (next : List Char → Option Int)
        (title : List Char) (description : Option (List Char))
        (expr : List Char) (tags : List (List Char)) (r : Reminder),
      Reminder.new_cron freshId now next title description expr tags = some r →
      oneTimeInv r) ∧
    (∀ r : Reminder, oneTimeInv r → oneTimeInv r.pause) ∧
    (∀ (next : List Char → Option Int) (r : Reminder),
      oneTimeInv r → oneTimeInv (r.resume next)) ∧
    (∀ (next : List Char → Option Int) (r : Reminder),
      oneTimeInv r → oneTimeInv (r.calculate_next_trigger next)) := by
  refine ⟨?_, ?_, ?_, ?_, ?_⟩
  · intro freshId now title description time tags t hs hc
    simp [Reminder.new_one_time] at hs ⊢
    omega
  · intro freshId now next title description expr tags r hr t hs hc
    unfold Reminder.new_cron at hr
    by_cases hv : validateCron expr = true
    · rw [if_pos hv] at hr
      injection hr with hr2
      subst hr2
      simp at hs
    · rw [if_neg hv] at hr
      exact absurd hr (by simp)
  · intro r hinv t hs hc
    simpa [Reminder.pause] using hinv t (by simpa [Reminder.pause] using hs)
      (by simpa [Reminder.pause] using hc)
  · intro next r hinv t hs hc
    rcases hsch : r.schedule with t0 | expr
    · have ht : t0 = t := by simpa [Reminder.resume, hsch] using hs
      subst ht
      have hc2 : r.completed = false := by
        simpa [Reminder.resume, hsch] using hc
      have hnt := hinv t0 hsch hc2
      simpa [Reminder.resume, hsch] using hnt
    · exfalso
      by_cases hv : validateCron expr = true <;>
        simp [Reminder.resume, hsch, hv] at hs
  · intro next r hinv t hs hc
    rcases hsch : r.schedule with t0 | expr
    · exfalso
      simp [Reminder.calculate_next_trigger, hsch] at hc
    · exfalso
      by_cases hv : validateCron expr = true <;>
        simp [Reminder.calculate_next_trigger, hsch, hv] at hs

theorem oneTime_next_trigger_invariant_witness :
    oneTimeInv (Reminder.new_one_time (("a1").toList) 0 (("t").toList) none 42 []) ∧
    oneTimeInv ((Reminder.new_one_time (("a1").toList) 0 (("t").toList) none 42 []).pause) :=
  ⟨oneTime_next_trigger_invariant.1 (("a1").toList) 0 (("t").toList) none 42 [],
   oneTime_next_trigger_invariant.2.2.1 _
     (oneTime_next_trigger_invariant.1 (("a1").toList) 0 (("t").toList) none 42 [])⟩

/-- C10: delete(id) with no matching record returns false without
performing a save, and clean_completed() with no completed records
returns 0 without performing a save (the save component is none). -/
theorem no_match_no_save :
    (∀ (reminders : List Reminder) (i : List Char),
      (∀ r ∈ reminders, r.id ≠ i) →
      Storage.delete reminders i = (false, none)) ∧
    (∀ reminders : List Reminder,
      (∀ r ∈ reminders, r.completed = false) →
      Storage.clean_completed reminders = (0, none)) := by
  constructor
  · intro reminders i h
    have hf : reminders.filter (fun r => decide (r.id ≠ i)) = reminders :=
      List.filter_eq_self.mpr (fun a ha => decide_eq_true (h a ha))
    simp [Storage.delete, hf]
    exact h
  · intro reminders h
    have hf : reminders.filter (fun r => !r.completed) = reminders :=
      List.filter_eq_self.mpr (fun a ha => by simp [h a ha])
    simp [Storage.clean_completed, hf]

theorem no_match_no_save_witness :
    Storage.delete [exOneTime] (("zz").toList) = (false, none) ∧
    Storage.clean_completed [exOneTime] = (0, none) :=
  ⟨no_match_no_save.1 [exOneTime] (("zz").toList) (by decide),
   no_match_no_save.2 [exOneTime] (by decide)⟩

/-- C5: short-ID resolution over the collection: zero prefix matches
give a not-found result (and delete performs no save), exactly one
match proceeds with that record, and two or more matches fail with an
ambiguity error naming the match count, with no save performed. -/
theorem short_id_resolution (reminders : List Reminder) (sid : List Char) :
    (short_id_matches reminders sid = [] →
      find_by_short_id reminders sid = .ok none ∧
      delete_by_short_id reminders sid = .ok (none, none)) ∧
    (∀ r0 : Reminder, short_id_matches reminders sid = [r0] →
      find_by_short_id reminders sid = .ok (some r0) ∧
      delete_by_short_id reminders sid = .ok (some r0.id,
        some (reminders.filter (fun r => decide (r.id ≠ r0.id))))) ∧
    (2 ≤ (short_id_matches reminders sid).length →
      find_by_short_id reminders sid =
        .error (.ambiguousId sid (short_id_matches reminders sid).length) ∧
      delete_by_short_id reminders sid =
        .error (.ambiguousId sid (short_id_matches reminders sid).length)) := by
  refine ⟨?_, ?_, ?_⟩
  · intro h
    constructor
    · simp [find_by_short_id, h]
    · simp [delete_by_short_id, h]
  · intro r0 h
    constructor
    · simp [find_by_short_id, h]
    · simp [delete_by_short_id, h]
  · intro h
    rcases hm : short_id_matches reminders sid with _ | ⟨a, _ | ⟨b, rest⟩⟩
    · rw [hm] at h; simp at h
    · rw [hm] at h; simp at h
    · constructor
      · simp [find_by_short_id, hm]
      · simp [delete_by_short_id, hm]

/-- The store of the spec's short-ID example: two records whose ids
share the prefix abc and diverge at the fourth character. -/
def exStoreA : Reminder :=
  { id := ("abc123-aaaa").toList, title := ("t1").toList, description := none,
    schedule := .OneTime 1, created_at := 0, next_trigger := some 1,
    completed := false, paused := false, tags := [] }

def exStoreB : Reminder :=
  { id := ("abc456-bbbb").toList, title := ("t2").toList, description := none,
    schedule := .OneTime 2, created_at := 0, next_trigger := some 2,
    completed := false, paused := false, tags := [] }

theorem short_id_resolution_witness :
    find_by_short_id [exStoreA, exStoreB] (("abc").toList) =
      .error (.ambiguousId (("abc").toList) 2) ∧
    find_by_short_id [exStoreA, exStoreB] (("abc1").toList) = .ok (some exStoreA) :=
  ⟨by
    have h := (short_id_resolution [exStoreA, exStoreB] (("abc").toList)).2.2
      (by decide)
    have h2 : (short_id_matches [exStoreA, exStoreB] (("abc").toList)).length = 2 := by
      decide
    rw [h2] at h
    exact h.1,
   ((short_id_resolution [exStoreA, exStoreB] (("abc1").toList)).2.1 exStoreA
     (by decide)).1⟩

theorem importLoop_no_overwrite (ids : List (List Char)) :
    ∀ (imp ex : List Reminder) (ic sc : Nat),
      importLoop ids false imp ex ic sc =
        ((ic + (imp.filter (fun r => decide (r.id ∉ ids))).length,
          sc + (imp.filter (fun r => decide (r.id ∈ ids))).length),
         ex ++ imp.filter (fun r => decide (r.id ∉ ids))) := by
  intro imp
  induction imp with
  | nil => intro ex ic sc; simp [importLoop]
  | cons r rest ih =>
    intro ex ic sc
    by_cases hmem : r.id ∈ ids
    · rw [importLoop, if_pos hmem]
      simp only [Bool.false_eq_true, if_false]
      rw [ih]
      simp [List.filter_cons, hmem]
      omega
    · rw [importLoop, if_neg hmem]
      rw [ih]
      simp [List.filter_cons, hmem]
      omega

/-- The records of an overwrite import that survive to the final
collection: a record whose id is in the pre-import store is removed
again by a later record of the import with the same id, so only its
last occurrence survives; records with new ids always survive. -/
def keepImports (ids : List (List Char)) : List Reminder → List Reminder
  | [] => []
  | r :: rest =>
    if r.id ∈ ids ∧ r.id ∈ rest.map (fun x => x.id) then keepImports ids rest
    else r :: keepImports ids rest

theorem importLoop_overwrite (ids : List (List Char)) :
    ∀ (imp ex : List Reminder) (ic sc : Nat),
      importLoop ids true imp ex ic sc =
        ((ic + imp.length, sc),
         ex.filter (fun x => decide (x.id ∉
             (imp.filter (fun r => decide (r.id ∈ ids))).map (fun r => r.id))) ++
           keepImports ids imp) := by
  intro imp
  induction imp with
  | nil =>
    intro ex ic sc
    simp [importLoop, keepImports]
  | cons r rest ih =>
    intro ex ic sc
    by_cases hmem : r.id ∈ ids
    · rw [importLoop, if_pos hmem, if_pos rfl, ih]
      simp only [Prod.mk.injEq]
      refine ⟨⟨by simp; omega, by first | rfl | trivial⟩, ?_⟩
      have hexf : List.filter (fun x => decide (x.id ∉
            (rest.filter (fun r2 => decide (r2.id ∈ ids))).map (fun r2 => r2.id)))
            (List.filter (fun x => decide (x.id ≠ r.id)) ex) =
          ex.filter (fun x => decide (x.id ∉
            ((r :: rest).filter (fun r2 => decide (r2.id ∈ ids))).map
              (fun r2 => r2.id))) := by
        rw [List.filter_filter]
        apply List.filter_congr
        intro a ha
        by_cases h1 : a.id = r.id <;>
          by_cases h2 : a.id ∈
            (rest.filter (fun r2 => decide (r2.id ∈ ids))).map (fun r2 => r2.id) <;>
          simp [h1, h2, List.filter_cons, hmem]
      by_cases hdup : r.id ∈ rest.map (fun x => x.id)
      · have hkeep : keepImports ids (r :: rest) = keepImports ids rest := by
          rw [keepImports, if_pos ⟨hmem, hdup⟩]
        have hrmem : r.id ∈
            (rest.filter (fun r2 => decide (r2.id ∈ ids))).map (fun r2 => r2.id) := by
          obtain ⟨x, hx, hxid⟩ := List.mem_map.mp hdup
          exact List.mem_map.mpr
            ⟨x, List.mem_filter.mpr ⟨hx, by simp [hxid, hmem]⟩, hxid⟩
        have hfilr : List.filter (fun x => decide (x.id ∉
            (rest.filter (fun r2 => decide (r2.id ∈ ids))).map (fun r2 => r2.id)))
            [r] = [] := by
          simp only [List.filter_cons, List.filter_nil, decide_eq_true_eq]
          rw [if_neg (not_not_intro hrmem)]
        rw [List.filter_append, hkeep, hexf, hfilr]
        simp
      · have hkeep : keepImports ids (r :: rest) = r :: keepImports ids rest := by
          rw [keepImports, if_neg (fun hh => hdup hh.2)]
        have hrnot : r.id ∉
            (rest.filter (fun r2 => decide (r2.id ∈ ids))).map (fun r2 => r2.id) := by
          intro hin
          obtain ⟨x, hxf, hxid⟩ := List.mem_map.mp hin
          exact hdup (List.mem_map.mpr ⟨x, List.mem_of_mem_filter hxf, hxid⟩)
        have hfilr : List.filter (fun x => decide (x.id ∉
            (rest.filter (fun r2 => decide (r2.id ∈ ids))).map (fun r2 => r2.id)))
            [r] = [r] := by
          simp only [List.filter_cons, List.filter_nil, decide_eq_true_eq]
          rw [if_pos hrnot]
        rw [List.filter_append, hkeep, hexf, hfilr]
        simp
    · rw [importLoop, if_neg hmem, ih]
      simp only [Prod.mk.injEq]
      refine ⟨⟨by simp; omega, by first | rfl | trivial⟩, ?_⟩
      have hfc : (r :: rest).filter (fun r2 => decide (r2.id ∈ ids)) =
          rest.filter (fun r2 => decide (r2.id ∈ ids)) := by
        simp [List.filter_cons, hmem]
      have hrnot : r.id ∉
          (rest.filter (fun r2 => decide (r2.id ∈ ids))).map (fun r2 => r2.id) := by
        intro hin
        obtain ⟨x, hxf, hxid⟩ := List.mem_map.mp hin
        exact hmem (hxid ▸ of_decide_eq_true (List.mem_filter.mp hxf).2)
      have hkeep : keepImports ids (r :: rest) = r :: keepImports ids rest := by
        rw [keepImports, if_neg (fun hh => hmem hh.1)]
      have hfilr : List.filter (fun x => decide (x.id ∉
          (rest.filter (fun r2 => decide (r2.id ∈ ids))).map (fun r2 => r2.id)))
          [r] = [r] := by
        simp only [List.filter_cons, List.filter_nil, decide_eq_true_eq]
        rw [if_pos hrnot]
      rw [List.filter_append, hkeep]
      simp only [hfc]
      rw [hfilr]
      simp

/-- C6: import merges by identifier.  Without overwrite, records whose
id already exists are skipped (each incrementing skipped_count, the
stored records untouched at the end of existing) and records with new
ids are appended in order and counted as imported; with overwrite,
every record is counted as imported and none skipped, the stored
records whose id occurs in the import are removed (replaced), and the
records of the import follow in order (a stored id occurring twice in
the import keeps only its last occurrence — each later one replaces
the earlier, per keepImports); the returned pair is
(imported_count, skipped_count). -/
theorem import_merge_by_id :
    (∀ (imported existing : List Reminder),
      import_from_file imported existing false =
        (((imported.filter
            (fun r => decide (r.id ∉ existing.map (fun x => x.id)))).length,
          (imported.filter
            (fun r => decide (r.id ∈ existing.map (fun x => x.id)))).length),
         existing ++ imported.filter
           (fun r => decide (r.id ∉ existing.map (fun x => x.id))))) ∧
    (∀ (imported existing : List Reminder),
      import_from_file imported existing true =
        ((imported.length, 0),
         existing.filter
           (fun x => decide (x.id ∉ imported.map (fun r => r.id))) ++
           keepImports (existing.map (fun y => y.id)) imported)) := by
  constructor
  · intro imported existing
    unfold import_from_file
    rw [importLoop_no_overwrite]
    simp
  · intro imported existing
    unfold import_from_file
    rw [importLoop_overwrite]
    congr 1
    · simp
    · congr 1
      apply List.filter_congr
      intro x hx
      by_cases hcase : x.id ∈ imported.map (fun r => r.id)
      · obtain ⟨r, hr, hrid⟩ := List.mem_map.mp hcase
        simp [hcase]
        exact ⟨r, hr, x, hx, hrid.symm, hrid⟩
      · simp [hcase]
        exact fun r hr y hy hyid hrx => hcase (List.mem_map.mpr ⟨r, hr, hrx⟩)

/-- A record sharing the id of exStoreA with different fields, and a
record with a fresh id, used to exercise an overwrite import. -/
def exStoreA2 : Reminder :=
  { id := ("abc123-aaaa").toList, title := ("t1b").toList, description := none,
    schedule := .OneTime 9, created_at := 0, next_trigger := some 9,
    completed := false, paused := false, tags := [] }

def exNewRec : Reminder :=
  { id := ("zzz999-cccc").toList, title := ("t3").toList, description := none,
    schedule := .OneTime 7, created_at := 0, next_trigger := some 7,
    completed := false, paused := false, tags := [] }

theorem import_merge_by_id_witness :
    import_from_file [exStoreA2, exNewRec] [exStoreA, exStoreB] true =
      ((2, 0), [exStoreB, exStoreA2, exNewRec]) :=
  (import_merge_by_id.2 [exStoreA2, exNewRec] [exStoreA, exStoreB]).trans
    (by decide)

theorem takeWhile_dropWhile_append {α : Type} (p : α → Bool) (l1 l2 : List α)
    (h1 : ∀ a ∈ l1, p a = true) (h2 : ∀ a, l2.head? = some a → p a = false) :
    (l1 ++ l2).takeWhile p = l1 ∧ (l1 ++ l2).dropWhile p = l2 := by
  induction l1 with
  | nil =>
    simp only [List.nil_append]
    cases l2 with
    | nil => simp
    | cons c r =>
      have hc := h2 c rfl
      constructor
      · simp [List.takeWhile_cons, hc]
      · simp [List.dropWhile_cons, hc]
  | cons a l ih =>
    have hpa := h1 a (List.mem_cons_self a l)
    have ih2 := ih (fun x hx => h1 x (List.mem_cons_of_mem a hx))
    constructor
    · simp [List.takeWhile_cons, hpa, ih2.1]
    · simp [List.dropWhile_cons, hpa, ih2.2]

theorem ws_not_digit (a : Char) (h : wsChar a = true) : Char.isDigit a = false := by
  have : a = ' ' ∨ a = '\t' ∨ a = '\n' ∨ a = '\r' := by
    simpa [wsChar, or_assoc] using h
  rcases this with rfl | rfl | rfl | rfl <;> decide

theorem unit_head (u : List Char) (k : Int) (h : unitSeconds u = some k) :
    ∀ a, u.head? = some a → Char.isDigit a = false ∧ wsChar a = false := by
  intro a ha
  unfold unitSeconds at h
  split_ifs at h with h1 h2 h3 h4
  · rcases h1 with rfl | rfl | rfl | rfl | rfl <;> (simp at ha; subst ha; decide)
  · rcases h2 with rfl | rfl | rfl | rfl | rfl <;> (simp at ha; subst ha; decide)
  · rcases h3 with rfl | rfl | rfl <;> (simp at ha; subst ha; decide)
  · rcases h4 with rfl | rfl | rfl <;> (simp at ha; subst ha; decide)

/-- C3 (counterexample): the input 0m — a non-positive amount — matches
the relative pattern and is accepted by the relative stage of
parse_time, resolving to now itself, so the claim that every
non-positive amount fails to match is false. -/
theorem relative_zero_accepted_counterexample :
    parse_time_relative_stage 1000 (("0m").toList) = some 1000 := by decide

/-- C3 (amended): every input that trims and lowercases to a digit run,
optional whitespace and a unit word in {minute(s)/m(in)(s), hour(s)/h(r)(s),
day(s)/d, week(s)/w} with amount at most i64::MAX resolves to now +
offset; conversely everything the relative stage accepts has exactly
that shape, so negative or fractional amounts fail to match — but a
zero amount is a digit run and is accepted, yielding now itself, so
only non-integer (and overflowing) amounts are rejected, not
non-positive ones. -/
theorem relative_offset_parsing :
    (∀ (now : Int) (input ds ws u : List Char) (k : Int),
      (trim input).map lowerChar = ds ++ (ws ++ u) →
      ds ≠ [] → (∀ c ∈ ds, Char.isDigit c = true) →
      (∀ c ∈ ws, wsChar c = true) →
      unitSeconds u = some k →
      natOfDigits ds ≤ maxI64 →
      parse_time_relative_stage now input =
        some (now + (natOfDigits ds : Int) * k)) ∧
    (∀ (now r : Int) (input : List Char),
      parse_relative now input = some r →
      ∃ ds ws u, input = ds ++ (ws ++ u) ∧ ds ≠ [] ∧
        (∀ c ∈ ds, Char.isDigit c = true) ∧ (∀ c ∈ ws, wsChar c = true) ∧
        ∃ k : Int, unitSeconds u = some k ∧ natOfDigits ds ≤ maxI64 ∧
          r = now + (natOfDigits ds : Int) * k) := by
  constructor
  · intro now input ds ws u k hdec hne hds hws hu hbound
    unfold parse_time_relative_stage
    rw [hdec]
    have hhead : ∀ a, (ws ++ u).head? = some a → Char.isDigit a = false := by
      intro a ha
      cases ws with
      | nil =>
        exact (unit_head u k hu a (by simpa using ha)).1
      | cons c t =>
        have : c = a := by simpa using ha
        subst this
        exact ws_not_digit c (hws c (List.mem_cons_self c t))
    have hsplit1 := takeWhile_dropWhile_append Char.isDigit ds (ws ++ u) hds hhead
    have hsplit2 := takeWhile_dropWhile_append wsChar ws u hws
      (fun a ha => (unit_head u k hu a ha).2)
    unfold parse_relative
    rw [hsplit1.1, hsplit1.2, hsplit2.2, hu]
    rw [if_neg (by simp [List.isEmpty_iff, hne])]
    simp only [Option.some_bind]
    rw [if_pos hbound]
  · intro now r input h
    unfold parse_relative at h
    by_cases he : (input.takeWhile Char.isDigit).isEmpty = true
    · rw [if_pos he] at h
      exact absurd h (by simp)
    · rw [if_neg he] at h
      rcases hu : unitSeconds ((input.dropWhile Char.isDigit).dropWhile wsChar) with - | k
      · rw [hu] at h
        exact absurd h (by simp)
      · rw [hu] at h
        simp only [Option.some_bind] at h
        by_cases hb : natOfDigits (input.takeWhile Char.isDigit) ≤ maxI64
        · rw [if_pos hb] at h
          refine ⟨input.takeWhile Char.isDigit,
            (input.dropWhile Char.isDigit).takeWhile wsChar,
            (input.dropWhile Char.isDigit).dropWhile wsChar, ?_, ?_, ?_, ?_,
            k, hu, hb, ?_⟩
          · rw [List.takeWhile_append_dropWhile, List.takeWhile_append_dropWhile]
          · simpa [List.isEmpty_iff] using he
          · intro c hc; exact List.mem_takeWhile_imp hc
          · intro c hc; exact List.mem_takeWhile_imp hc
          · injection h with h2
            exact h2.symm
        · rw [if_neg hb] at h
          exact absurd h (by simp)

theorem relative_offset_parsing_witness :
    parse_time_relative_stage 7 (("10 M").toList) = some 607 :=
  (relative_offset_parsing.1 7 (("10 M").toList) ['1','0'] [' '] ['m'] 60
    (by decide) (by decide) (by decide) (by decide) (by decide)
    (by decide)).trans (by decide)

theorem this_weekday_self (d t : Int) (h : d % 7 = t) : this_weekday d t = d := by
  unfold this_weekday num_days_from_monday
  omega

theorem next_weekday_self (d t : Int) (h : d % 7 = t) : next_weekday d t = d + 7 := by
  simp only [next_weekday, num_days_from_monday]
  split_ifs with h0 <;> omega

theorem parse_weekday_shape (s : List Char) (w : Int) (h : parse_weekday s = some w) :
    s = ['m','o','n','d','a','y'] ∨ s = ['m','o','n'] ∨
    s = ['t','u','e','s','d','a','y'] ∨ s = ['t','u','e'] ∨ s = ['t','u','e','s'] ∨
    s = ['w','e','d','n','e','s','d','a','y'] ∨ s = ['w','e','d'] ∨
    s = ['t','h','u','r','s','d','a','y'] ∨ s = ['t','h','u'] ∨
    s = ['t','h','u','r'] ∨ s = ['t','h','u','r','s'] ∨
    s = ['f','r','i','d','a','y'] ∨ s = ['f','r','i'] ∨
    s = ['s','a','t','u','r','d','a','y'] ∨ s = ['s','a','t'] ∨
    s = ['s','u','n','d','a','y'] ∨ s = ['s','u','n'] := by
  unfold parse_weekday at h
  split_ifs at h with h1 h2 h3 h4 h5 h6 h7 <;> tauto

/-- C4 (counterexample): today is a Thursday (day number 3, weekday 3),
yet the parse_time inputs this thursday and next thursday without a
time-of-day do not resolve to a date at all: parse_natural splits at
the last whitespace, so the date reference it dispatches on is the bare
word this (or next), which matches no arm and fails; the relative stage
also rejects these inputs (no leading digit), so the claimed results
today and today + 7 are never produced. -/
theorem parse_time_weekday_no_time_counterexample :
    num_days_from_monday 3 = 3 ∧
    parse_weekday (("thursday").toList) = some 3 ∧
    split_date_time (("this thursday").toList) =
      ((("this").toList), (("thursday").toList)) ∧
    parse_natural_date 3 (("this thursday").toList) = none ∧
    parse_natural_date 3 (("next thursday").toList) = none ∧
    parse_time_relative_stage 3 (("this thursday").toList) = none ∧
    parse_time_relative_stage 3 (("next thursday").toList) = none := by
  decide

/-- C4 (amended): next_weekday resolves strictly after today, within
seven days, to the requested weekday, and to today + 7 when today
already is that weekday (never today); this_weekday resolves within the
week beginning today, to the requested weekday, and to today itself
when today already is that weekday.  These are the resolutions of the
date references this/next/bare weekday as parse_natural dispatches
them.  At the parse_time level the in-particular clauses need a
time-of-day: a bare weekday name (having no whitespace) survives the
date/time split whole and resolves to today + 7 when today matches,
and this/next followed by the name of today's weekday resolve to today
and today + 7 when a time-of-day follows; without one, the split leaves
only the word this/next as the date reference and the input is
rejected, not resolved to a date. -/
theorem weekday_resolution (d t : Int) (h0 : 0 ≤ t) (h7 : t < 7) :
    (d < next_weekday d t ∧ next_weekday d t ≤ d + 7 ∧
      num_days_from_monday (next_weekday d t) = t ∧
      (num_days_from_monday d = t → next_weekday d t = d + 7)) ∧
    (d ≤ this_weekday d t ∧ this_weekday d t ≤ d + 6 ∧
      num_days_from_monday (this_weekday d t) = t ∧
      (num_days_from_monday d = t → this_weekday d t = d)) ∧
    (∀ name : List Char, parse_weekday name = some t →
      num_days_from_monday d = t →
      resolve_date_part d (['t','h','i','s',' '] ++ name) = some d ∧
      resolve_date_part d (['n','e','x','t',' '] ++ name) = some (d + 7) ∧
      resolve_date_part d name = some (d + 7) ∧
      parse_natural_date d name = some (d + 7) ∧
      parse_natural_date d (['t','h','i','s',' '] ++ name) = none ∧
      parse_natural_date d (['n','e','x','t',' '] ++ name) = none ∧
      parse_natural_date d (['t','h','i','s',' '] ++ name ++ [' ','9','a','m']) =
        some d ∧
      parse_natural_date d (['n','e','x','t',' '] ++ name ++ [' ','9','a','m']) =
        some (d + 7)) := by
  refine ⟨⟨?_, ?_, ?_, ?_⟩, ⟨?_, ?_, ?_, ?_⟩, ?_⟩
  · simp only [next_weekday, num_days_from_monday]
    split_ifs <;> omega
  · simp only [next_weekday, num_days_from_monday]
    split_ifs <;> omega
  · simp only [next_weekday, num_days_from_monday]
    split_ifs <;> omega
  · intro hd
    exact next_weekday_self d t hd
  · simp only [this_weekday, num_days_from_monday]
    omega
  · simp only [this_weekday, num_days_from_monday]
    omega
  · simp only [this_weekday, num_days_from_monday]
    omega
  · intro hd
    exact this_weekday_self d t hd
  · intro name hw hnum
    rcases parse_weekday_shape name t hw with
      rfl | rfl | rfl | rfl | rfl | rfl | rfl | rfl | rfl | rfl | rfl | rfl |
      rfl | rfl | rfl | rfl | rfl <;>
      (obtain rfl : _ = t := Option.some_inj.mp hw
       exact ⟨congrArg some (this_weekday_self d _ hnum),
         congrArg some (next_weekday_self d _ hnum),
         congrArg some (next_weekday_self d _ hnum),
         congrArg some (next_weekday_self d _ hnum),
         rfl, rfl,
         congrArg some (this_weekday_self d _ hnum),
         congrArg some (next_weekday_self d _ hnum)⟩)

theorem weekday_resolution_witness :
    resolve_date_part 3 (['t','h','i','s',' '] ++ ['t','h','u']) = some 3 ∧
    resolve_date_part 3 (['n','e','x','t',' '] ++ ['t','h','u']) = some 10 ∧
    resolve_date_part 3 ['t','h','u'] = some 10 ∧
    parse_natural_date 3 ['t','h','u'] = some 10 ∧
    parse_natural_date 3 (['t','h','i','s',' '] ++ ['t','h','u']) = none ∧
    parse_natural_date 3 (['n','e','x','t',' '] ++ ['t','h','u']) = none ∧
    parse_natural_date 3 (['t','h','i','s',' '] ++ ['t','h','u'] ++ [' ','9','a','m']) =
      some 3 ∧
    parse_natural_date 3 (['n','e','x','t',' '] ++ ['t','h','u'] ++ [' ','9','a','m']) =
      some 10 :=
  (weekday_resolution 3 3 (by decide) (by decide)).2.2 ['t','h','u']
    (by decide) (by decide)

/-- C8: every input the normalizer accepts through the English
recurrence phrase path (the input itself did not validate as cron)
yields a valid six-field cron string: the returned expression
re-validates successfully and has exactly six space-separated
fields. -/
theorem english_phrase_output_valid
    (translate : List Char → Option (List Char)) (input out : List Char)
    (hok : parse_cron translate input = .ok out)
    (hnot : validateCron (trim input) = false) :
    validateCron out = true ∧ numFields out = 6 := by
  unfold parse_cron at hok
  rw [if_neg (by simp [hnot])] at hok
  rcases ht : translate (trim input) with - | e
  · rw [ht] at hok
    exact absurd hok (by simp)
  · rw [ht] at hok
    simp only [] at hok
    by_cases hv : validateCron e = true
    · rw [if_pos hv] at hok
      injection hok with h2
      subst h2
      exact ⟨hv, numFields_of_validateCron _ hv⟩
    · rw [if_neg hv] at hok
      exact absurd hok (by simp)

theorem english_phrase_output_valid_witness :
    validateCron (("0 0 9 * * *").toList) = true ∧
    numFields (("0 0 9 * * *").toList) = 6 :=
  english_phrase_output_valid str_cron_syntax (("every day at 9am").toList)
    (("0 0 9 * * *").toList) (by rfl) (by decide)

/-- C9: every input string that is already a valid six-field cron
expression is returned unchanged by the normalizer. -/
theorem valid_cron_pass_through
    (translate : List Char → Option (List Char)) (input : List Char)
    (h : validateCron input = true) :
    parse_cron translate input = .ok input := by
  unfold parse_cron
  rw [validateCron_trim_eq_self input h, if_pos h]

theorem valid_cron_pass_through_witness :
    parse_cron str_cron_syntax (("0 30 8 * * 1-5").toList) =
      .ok (("0 30 8 * * 1-5").toList) :=
  valid_cron_pass_through str_cron_syntax (("0 30 8 * * 1-5").toList) (by decide)

end ReminderCli
